import Mathlib

/-!
Verification of the coroutine drivers of the async-js codelab.

The repository contains two `co`-style drivers and a hand-written
state-machine transliteration of a generator:

* `src/co-simple-solution.js` — the simple driver: it resumes the
  generator, and while the generator is not done it subscribes only a
  success callback (`ret.value.then(next)`) to the yielded promise.
* `src/solutions/generator-error-propagation-solution.js` — the
  error-propagating driver with `onResolve` (calls `g.next(value)`),
  `onReject` (calls `g.throw(err)`) and `next(ret)`; both resumption
  helpers catch a throwing resumption, reject the driver promise, and
  then still fall through to `next(ret)` with `ret` undefined.
* the `adder(initialValue)` state machine of the same file, with
  `next`/`throw` entry points, explicit `state`, `sum`, `lastSum`,
  `temp` locals, and a try/catch in the `loop` state.

The shallow embedding below models routines (generators) as explicit
state machines with a resume-with-value and a resume-with-fault entry
point, promises as items carrying their predetermined settlement, and
each driver as a fuel-based executable function that also emits the
chronological trace of the events the driver performs (resumptions,
subscriptions, operation settlements, calls to resolve/reject, and the
secondary TypeError of the error driver).  JavaScript specifics that
matter are modelled explicitly: a throw inside the promise executor
rejects the driver promise unless it has already settled, a throw
inside a `.then` callback is swallowed, and calling `.then` on a
non-thenable raises a TypeError.
-/

namespace AsyncCo

/-- A JavaScript fault as seen by the driver promise: either a fault
value coming from user code (a promise rejection or a value thrown by
the routine), or one of the two runtime TypeErrors the drivers can
produce (calling `.then` on a non-thenable; reading `.done` of
`undefined`). -/
inductive JsFault (φ : Type) where
  | user (e : φ)
  | thenNotFunction
  | doneOfUndefined
  deriving DecidableEq, Repr

/-- What a routine can yield at a suspension point: a thenable
(pending operation) carrying its eventual settlement — `Except.ok v`
for a resolution with `v`, `Except.error e` for a rejection with `e` —
or a plain non-thenable value (the protocol-misuse case). -/
inductive Item (α φ : Type) where
  | thenable (s : Except φ α)
  | plain (v : α)

/-- The outcome of one resumption of a routine, mirroring what
`g.next(v)` / `g.throw(e)` can do: return `{done: false, value: item}`
(`yields`), return `{done: true, value: v}` (`finished`), or throw
(`raises`). -/
inductive Step (σ α ρ φ : Type) where
  | yields (s : σ) (item : Item α φ)
  | finished (v : ρ)
  | raises (e : φ)

/-- A routine: an explicit state machine with the two generator entry
points.  `resumeWithValue s (some v)` models `g.next(v)`,
`resumeWithValue s none` models `g.next()` (resumption with no input),
and `resumeWithFault s e` models `g.throw(e)`. -/
structure Routine (σ α ρ φ : Type) where
  init : σ
  resumeWithValue : σ → Option α → Step σ α ρ φ
  resumeWithFault : σ → φ → Step σ α ρ φ

/-- The settlement of the driver promise (the Driver Result):
resolved, rejected, or never settled (`hung`). -/
inductive Outcome (ρ φ : Type) where
  | resolved (v : ρ)
  | rejected (e : JsFault φ)
  | hung
  deriving DecidableEq, Repr

/-- Events the simple driver performs, in chronological order:
a resumption of the routine with the given input (`g.next(input)`), a
subscription to a yielded pending operation (`ret.value.then(next)`),
and the settlement of the subscribed operation. -/
inductive SEv (α φ : Type) where
  | resumed (input : Option α)
  | subscribed
  | settled (s : Except φ α)

/-- One run of the simple driver of `co-simple-solution.js`, from state
`s` about to be resumed with `input`.  `inExec` records whether this
call of `next` runs synchronously inside the promise executor (true
only for the initial `next()`); a throw there rejects the driver
promise, while a throw inside a settlement callback is swallowed and
the driver promise never settles.  Returns `none` when the fuel runs
out, otherwise the driver outcome together with the event trace from
this point on. -/
def coSimpleGo (r : Routine σ α ρ φ) :
    Nat → σ → Option α → Bool → Option (Outcome ρ φ × List (SEv α φ))
  | 0, _, _, _ => none
  | fuel + 1, s, input, inExec =>
    match r.resumeWithValue s input with
    | Step.raises e =>
        some ((if inExec then Outcome.rejected (JsFault.user e) else Outcome.hung),
          [SEv.resumed input])
    | Step.finished v => some (Outcome.resolved v, [SEv.resumed input])
    | Step.yields _ (Item.plain _) =>
        some ((if inExec then Outcome.rejected JsFault.thenNotFunction else Outcome.hung),
          [SEv.resumed input])
    | Step.yields s1 (Item.thenable (Except.ok v)) =>
        match coSimpleGo r fuel s1 (some v) false with
        | none => none
        | some (out, evs) =>
            some (out, SEv.resumed input :: SEv.subscribed :: SEv.settled (Except.ok v) :: evs)
    | Step.yields _ (Item.thenable (Except.error e)) =>
        some (Outcome.hung, [SEv.resumed input, SEv.subscribed, SEv.settled (Except.error e)])

/-- Run the simple driver from the start: instantiate the routine and
resume it with no input, synchronously inside the executor. -/
def coSimpleRun (r : Routine σ α ρ φ) (fuel : Nat) :
    Option (Outcome ρ φ × List (SEv α φ)) :=
  coSimpleGo r fuel r.init none true

/-- The inputs of the resumptions recorded in a simple-driver trace,
in order. -/
def resumedInputs : List (SEv α φ) → List (Option α)
  | [] => []
  | SEv.resumed i :: t => i :: resumedInputs t
  | _ :: t => resumedInputs t

/-- Acceptor for the tail of a well-sequenced trace: a possibly empty
repetition of subscribe–settle–resume segments, optionally ending with
a subscribe–settle pair whose settlement got no callback. -/
def segsOk : List (SEv α φ) → Bool
  | [] => true
  | [SEv.subscribed, SEv.settled _] => true
  | SEv.subscribed :: SEv.settled _ :: SEv.resumed _ :: rest => segsOk rest
  | _ => false

/-- A well-sequenced simple-driver trace: an initial resumption,
followed by subscribe–settle–resume segments.  This is the strict
alternation the spec's ordering guarantee describes: every new
resumption is preceded by the settlement of the one pending operation
subscribed since the previous resumption. -/
def chainOk : List (SEv α φ) → Bool
  | SEv.resumed _ :: rest => segsOk rest
  | _ => false

/-- Step a count of outstanding (subscribed but unsettled) pending
operations over a trace, checking at every event that at most one
operation is outstanding, that a settlement only happens with one
operation outstanding, and that a resumption only happens with no
operation outstanding. -/
def balancedFrom : Nat → List (SEv α φ) → Bool
  | _, [] => true
  | b, SEv.subscribed :: t => b == 0 && balancedFrom 1 t
  | b, SEv.settled _ :: t => b == 1 && balancedFrom 0 t
  | b, SEv.resumed _ :: t => b == 0 && balancedFrom b t

/-- The "script" of routines the happy-path claims quantify over:
`Script r s inp vs fin` holds when, resumed from state `s` with input
`inp`, the routine yields one pending operation per element of `vs`,
each a thenable resolving to that element, is resumed with that
resolved value, and finally finishes with `fin`. -/
inductive Script (r : Routine σ α ρ φ) : σ → Option α → List α → ρ → Prop
  | done {s inp v} :
      r.resumeWithValue s inp = Step.finished v → Script r s inp [] v
  | step {s inp s1 v vs fin} :
      r.resumeWithValue s inp = Step.yields s1 (Item.thenable (Except.ok v)) →
      Script r s1 (some v) vs fin →
      Script r s inp (v :: vs) fin

/-- The event trace the simple driver produces on a script run. -/
def scriptEvents (inp : Option α) : List α → List (SEv α φ)
  | [] => [SEv.resumed inp]
  | v :: vs =>
      SEv.resumed inp :: SEv.subscribed :: SEv.settled (Except.ok v) ::
        scriptEvents (some v) vs

theorem coSimpleGo_succ (r : Routine σ α ρ φ) (fuel : Nat) (s : σ)
    (input : Option α) (inExec : Bool) :
    coSimpleGo r (fuel + 1) s input inExec =
      match r.resumeWithValue s input with
      | Step.raises e =>
          some ((if inExec then Outcome.rejected (JsFault.user e) else Outcome.hung),
            [SEv.resumed input])
      | Step.finished v => some (Outcome.resolved v, [SEv.resumed input])
      | Step.yields _ (Item.plain _) =>
          some ((if inExec then Outcome.rejected JsFault.thenNotFunction else Outcome.hung),
            [SEv.resumed input])
      | Step.yields s1 (Item.thenable (Except.ok v)) =>
          match coSimpleGo r fuel s1 (some v) false with
          | none => none
          | some (out, evs) =>
              some (out, SEv.resumed input :: SEv.subscribed :: SEv.settled (Except.ok v) :: evs)
      | Step.yields _ (Item.thenable (Except.error e)) =>
          some (Outcome.hung, [SEv.resumed input, SEv.subscribed, SEv.settled (Except.error e)]) :=
  rfl

theorem coSimpleGo_finished {r : Routine σ α ρ φ} {s : σ} {input : Option α}
    {v : ρ} (fuel : Nat) (b : Bool)
    (h : r.resumeWithValue s input = Step.finished v) :
    coSimpleGo r (fuel + 1) s input b =
      some (Outcome.resolved v, [SEv.resumed input]) := by
  rw [coSimpleGo_succ, h]

theorem coSimpleGo_raises {r : Routine σ α ρ φ} {s : σ} {input : Option α}
    {e : φ} (fuel : Nat) (b : Bool)
    (h : r.resumeWithValue s input = Step.raises e) :
    coSimpleGo r (fuel + 1) s input b =
      some ((if b then Outcome.rejected (JsFault.user e) else Outcome.hung),
        [SEv.resumed input]) := by
  rw [coSimpleGo_succ, h]

theorem coSimpleGo_plain {r : Routine σ α ρ φ} {s : σ} {input : Option α}
    {s1 : σ} {w : α} (fuel : Nat) (b : Bool)
    (h : r.resumeWithValue s input = Step.yields s1 (Item.plain w)) :
    coSimpleGo r (fuel + 1) s input b =
      some ((if b then Outcome.rejected JsFault.thenNotFunction else Outcome.hung),
        [SEv.resumed input]) := by
  rw [coSimpleGo_succ, h]

theorem coSimpleGo_yield_ok {r : Routine σ α ρ φ} {s : σ} {input : Option α}
    {s1 : σ} {v : α} (fuel : Nat) (b : Bool)
    (h : r.resumeWithValue s input = Step.yields s1 (Item.thenable (Except.ok v))) :
    coSimpleGo r (fuel + 1) s input b =
      (coSimpleGo r fuel s1 (some v) false).map
        (fun p =>
          (p.1, SEv.resumed input :: SEv.subscribed :: SEv.settled (Except.ok v) :: p.2)) := by
  rw [coSimpleGo_succ, h]
  show (match coSimpleGo r fuel s1 (some v) false with
        | none => none
        | some (out, evs) =>
            some (out,
              SEv.resumed input :: SEv.subscribed :: SEv.settled (Except.ok v) :: evs)) = _
  rcases coSimpleGo r fuel s1 (some v) false with _ | ⟨out, evs⟩ <;> rfl

theorem coSimpleGo_yield_err {r : Routine σ α ρ φ} {s : σ} {input : Option α}
    {s1 : σ} {e : φ} (fuel : Nat) (b : Bool)
    (h : r.resumeWithValue s input = Step.yields s1 (Item.thenable (Except.error e))) :
    coSimpleGo r (fuel + 1) s input b =
      some (Outcome.hung,
        [SEv.resumed input, SEv.subscribed, SEv.settled (Except.error e)]) := by
  rw [coSimpleGo_succ, h]

theorem coSimpleGo_script {r : Routine σ α ρ φ} {s : σ} {inp : Option α}
    {vs : List α} {fin : ρ} (h : Script r s inp vs fin) (b : Bool) :
    coSimpleGo r (vs.length + 1) s inp b =
      some (Outcome.resolved fin, scriptEvents inp vs) := by
  induction h generalizing b with
  | done hstep =>
      show coSimpleGo r (0 + 1) _ _ b = _
      rw [coSimpleGo_finished 0 b hstep]
      rfl
  | step hstep _ ih =>
      show coSimpleGo r (_ + 1 + 1) _ _ b = _
      rw [coSimpleGo_yield_ok _ b hstep, ih false]
      rfl

theorem resumedInputs_scriptEvents (inp : Option α) (vs : List α) :
    resumedInputs (φ := φ) (scriptEvents inp vs) = inp :: vs.map some := by
  induction vs generalizing inp with
  | nil => simp [scriptEvents, resumedInputs]
  | cons v vs ih => simp [scriptEvents, resumedInputs, ih (some v)]

/-- Claim C1: for every routine that yields `N` pending operations,
each settling successfully, and then finishes, the simple driver
resolves the Driver Result with the routine's final value, performs
exactly `N + 1` resumptions, and each resumption after the first
carries the immediately preceding operation's resolved value as its
input (the first carries none). -/
theorem driver_runs_script {r : Routine σ α ρ φ} {vs : List α} {fin : ρ}
    (h : Script r r.init none vs fin) :
    coSimpleRun r (vs.length + 1) =
        some (Outcome.resolved fin, scriptEvents none vs) ∧
      resumedInputs (scriptEvents (φ := φ) none vs) = none :: vs.map some ∧
      (resumedInputs (scriptEvents (φ := φ) none vs)).length = vs.length + 1 := by
  refine ⟨coSimpleGo_script h true, resumedInputs_scriptEvents none vs, ?_⟩
  rw [resumedInputs_scriptEvents]
  simp

/-- The three-operation summing routine of the codelab's running
example: it yields pending operations resolving to 1, 2, 3 in turn,
adds each resolved value to its accumulator, and returns the sum. -/
def sumRoutine : Routine (Nat × Nat) Nat Nat Unit where
  init := (0, 0)
  resumeWithValue := fun s inp =>
    let acc := match inp with
      | none => s.2
      | some v => s.2 + v
    if s.1 < 3 then
      Step.yields (s.1 + 1, acc) (Item.thenable (Except.ok (s.1 + 1)))
    else
      Step.finished acc
  resumeWithFault := fun _ e => Step.raises e

/-- Claim C7: a routine that finishes on its very first resumption,
without yielding any pending operation, makes the simple driver settle
the Driver Result with the routine's final value after exactly one
resumption, and that resumption carries no input (`g.next()` with no
argument). -/
theorem immediate_completion {r : Routine σ α ρ φ} {v : ρ}
    (h : r.resumeWithValue r.init none = Step.finished v) (fuel : Nat) :
    coSimpleRun r (fuel + 1) = some (Outcome.resolved v, [SEv.resumed none]) ∧
      resumedInputs (φ := φ) [SEv.resumed (α := α) none] = [none] :=
  ⟨coSimpleGo_finished fuel true h, rfl⟩

/-- A routine that immediately returns 42 without suspending. -/
def constRoutine : Routine Unit Nat Nat Unit where
  init := ()
  resumeWithValue := fun _ _ => Step.finished 42
  resumeWithFault := fun _ e => Step.raises e

theorem immediate_completion_witness :
    coSimpleRun constRoutine 1 = some (Outcome.resolved 42, [SEv.resumed none]) ∧
      resumedInputs (φ := Unit) [SEv.resumed (α := Nat) none] = [none] :=
  immediate_completion rfl 0

theorem chainOk_inv {evs : List (SEv α φ)} (h : chainOk evs = true) :
    ∃ i rest, evs = SEv.resumed i :: rest ∧ segsOk rest = true := by
  match evs with
  | [] => exact absurd h (by simp [chainOk])
  | SEv.resumed i :: rest => exact ⟨i, rest, rfl, h⟩
  | SEv.subscribed :: rest => exact absurd h (by simp [chainOk])
  | SEv.settled _ :: rest => exact absurd h (by simp [chainOk])

theorem coSimpleGo_trace_ok {r : Routine σ α ρ φ} :
    ∀ (fuel : Nat) (s : σ) (inp : Option α) (b : Bool) (out : Outcome ρ φ)
      (evs : List (SEv α φ)),
      coSimpleGo r fuel s inp b = some (out, evs) →
      chainOk evs = true ∧ balancedFrom 0 evs = true := by
  intro fuel
  induction fuel with
  | zero => intro s inp b out evs h; exact absurd h (by simp [coSimpleGo])
  | succ fuel ih =>
      intro s inp b out evs h
      rcases hstep : r.resumeWithValue s inp with ⟨s1, item⟩ | v | e
      · rcases item with sett | w
        · rcases sett with e | v
          · rw [coSimpleGo_yield_err fuel b hstep] at h
            obtain ⟨-, hevs⟩ := Prod.mk.injEq .. ▸ Option.some.injEq .. ▸ h
            subst hevs
            exact ⟨by simp [chainOk, segsOk], by simp [balancedFrom]⟩
          · rw [coSimpleGo_yield_ok fuel b hstep] at h
            rcases hrec : coSimpleGo r fuel s1 (some v) false with _ | ⟨out1, evs1⟩
            · rw [hrec] at h; exact absurd h (by simp)
            · rw [hrec] at h
              rw [show Option.map
                    (fun p => (p.1,
                      SEv.resumed inp :: SEv.subscribed :: SEv.settled (Except.ok v) :: p.2))
                    (some (out1, evs1)) =
                  some (out1,
                    SEv.resumed inp :: SEv.subscribed :: SEv.settled (Except.ok v) :: evs1)
                from rfl] at h
              obtain ⟨-, hevs⟩ := Prod.mk.injEq .. ▸ Option.some.injEq .. ▸ h
              obtain ⟨hc, hb⟩ := ih s1 (some v) false out1 evs1 hrec
              obtain ⟨i1, rest1, hsh, hsegs⟩ := chainOk_inv hc
              subst hevs
              subst hsh
              refine ⟨?_, ?_⟩
              · simpa [chainOk, segsOk] using hsegs
              · simpa [balancedFrom] using hb
        · rw [coSimpleGo_plain fuel b hstep] at h
          obtain ⟨-, hevs⟩ := Prod.mk.injEq .. ▸ Option.some.injEq .. ▸ h
          subst hevs
          exact ⟨by simp [chainOk, segsOk], by simp [balancedFrom]⟩
      · rw [coSimpleGo_finished fuel b hstep] at h
        obtain ⟨-, hevs⟩ := Prod.mk.injEq .. ▸ Option.some.injEq .. ▸ h
        subst hevs
        exact ⟨by simp [chainOk, segsOk], by simp [balancedFrom]⟩
      · rw [coSimpleGo_raises fuel b hstep] at h
        obtain ⟨-, hevs⟩ := Prod.mk.injEq .. ▸ Option.some.injEq .. ▸ h
        subst hevs
        exact ⟨by simp [chainOk, segsOk], by simp [balancedFrom]⟩

/-- Claim C6: every terminating run of the simple driver produces a
strictly sequential event trace: a first resumption, then repeated
subscribe–settle–resume segments (`chainOk`), so at every instant at
most one pending operation is outstanding, an operation is subscribed
only when none is outstanding, and a new resumption is issued only
after the previously subscribed operation has settled
(`balancedFrom 0`). -/
theorem driver_single_outstanding {r : Routine σ α ρ φ} {fuel : Nat}
    {out : Outcome ρ φ} {evs : List (SEv α φ)}
    (h : coSimpleRun r fuel = some (out, evs)) :
    chainOk evs = true ∧ balancedFrom 0 evs = true :=
  coSimpleGo_trace_ok fuel r.init none true out evs h

theorem driver_single_outstanding_witness :
    chainOk (scriptEvents (φ := Unit) (none : Option Nat) [1, 2, 3]) = true ∧
      balancedFrom 0 (scriptEvents (φ := Unit) (none : Option Nat) [1, 2, 3]) = true :=
  @driver_single_outstanding (Nat × Nat) Nat Nat Unit sumRoutine 4
    (Outcome.resolved 6) (scriptEvents none [1, 2, 3]) rfl

theorem driver_runs_script_witness :
    coSimpleRun sumRoutine 4 =
        some (Outcome.resolved 6, scriptEvents none [1, 2, 3]) ∧
      resumedInputs (scriptEvents (φ := Unit) (none : Option Nat) [1, 2, 3]) =
        none :: [1, 2, 3].map some ∧
      (resumedInputs (scriptEvents (φ := Unit) (none : Option Nat) [1, 2, 3])).length =
        [1, 2, 3].length + 1 :=
  driver_runs_script
    (Script.step rfl (Script.step rfl (Script.step rfl (Script.done rfl))))

/-- `SReach r s inp n pre t ti` holds when, driven by the simple
driver from state `s` about to be resumed with `inp`, the routine
performs `n` resumptions that each yield a successfully resolving
pending operation, producing the event prefix `pre`, and leaves the
driver about to resume state `t` with input `ti`. -/
inductive SReach (r : Routine σ α ρ φ) :
    σ → Option α → Nat → List (SEv α φ) → σ → Option α → Prop
  | refl {s inp} : SReach r s inp 0 [] s inp
  | step {s inp s1 v n evs t ti} :
      r.resumeWithValue s inp = Step.yields s1 (Item.thenable (Except.ok v)) →
      SReach r s1 (some v) n evs t ti →
      SReach r s inp (n + 1)
        (SEv.resumed inp :: SEv.subscribed :: SEv.settled (Except.ok v) :: evs) t ti

theorem map_prepend_nil (o : Option (Outcome ρ φ × List (SEv α φ))) :
    o.map (fun p => (p.1, ([] : List (SEv α φ)) ++ p.2)) = o := by
  rcases o with _ | ⟨out, l⟩ <;> simp

theorem coSimpleGo_reach {r : Routine σ α ρ φ} {s : σ} {inp : Option α}
    {n : Nat} {pre : List (SEv α φ)} {t : σ} {ti : Option α}
    (h : SReach r s inp n pre t ti) :
    ∀ (fuel : Nat) (b : Bool),
      coSimpleGo r (n + fuel) s inp b =
        (coSimpleGo r fuel t ti (if n = 0 then b else false)).map
          (fun p => (p.1, pre ++ p.2)) := by
  induction h with
  | refl =>
      intro fuel b
      rw [Nat.zero_add, if_pos rfl, map_prepend_nil]
  | step hstep _ ih =>
      intro fuel b
      rw [Nat.add_right_comm]
      rw [coSimpleGo_yield_ok _ b hstep]
      have hlift := ih fuel false
      rw [ite_self] at hlift
      rw [hlift, if_neg (Nat.succ_ne_zero _), Option.map_map]
      rfl

/-- A routine whose second resumption yields a plain (non-thenable)
value: it first yields a pending operation resolving to 7, then yields
the bare value 5. -/
def plainYielder : Routine Nat Nat Nat Unit where
  init := 0
  resumeWithValue := fun s _ =>
    match s with
    | 0 => Step.yields 1 (Item.thenable (Except.ok 7))
    | 1 => Step.yields 2 (Item.plain 5)
    | _ => Step.finished 0
  resumeWithFault := fun _ e => Step.raises e

/-- Claim C5 counterexample: when the non-thenable yield happens on a
resumption other than the first, the simple driver's Driver Result
does not settle as failed — `ret.value.then` raises its TypeError
inside a settlement callback, where it is swallowed, and the driver
promise never settles (`Outcome.hung`, which is distinct from every
`Outcome.rejected` fault). -/
theorem plain_yield_no_settlement :
    coSimpleRun plainYielder 5 =
        some (Outcome.hung,
          [SEv.resumed none, SEv.subscribed, SEv.settled (Except.ok 7),
            SEv.resumed (some 7)]) ∧
      ∀ e, (Outcome.hung : Outcome Nat Unit) ≠ Outcome.rejected e := by
  refine ⟨rfl, ?_⟩
  intro e h
  exact Outcome.noConfusion h

/-- A routine whose very first resumption yields a plain value. -/
def plainFirst : Routine Unit Nat Nat Unit where
  init := ()
  resumeWithValue := fun _ _ => Step.yields () (Item.plain 5)
  resumeWithFault := fun _ e => Step.raises e

/-- Claim C5 (amended): when a resumption of the routine yields a
non-thenable item, the simple driver attempts no further resumption;
if this happens on the very first resumption, the TypeError raised by
`ret.value.then` propagates out of the promise executor and the Driver
Result settles as failed with that TypeError, but on any later
resumption the TypeError is raised inside a settlement callback and is
swallowed, so the Driver Result never settles at all. -/
theorem plain_yield_behavior :
    (∀ (r : Routine σ α ρ φ) (s1 : σ) (w : α) (fuel : Nat),
      r.resumeWithValue r.init none = Step.yields s1 (Item.plain w) →
      coSimpleRun r (fuel + 1) =
        some (Outcome.rejected JsFault.thenNotFunction, [SEv.resumed none])) ∧
    (∀ (r : Routine σ α ρ φ) (s0 : σ) (v0 : α) (n : Nat) (pre : List (SEv α φ))
      (t : σ) (ti : Option α) (s1 : σ) (w : α) (fuel : Nat),
      r.resumeWithValue r.init none = Step.yields s0 (Item.thenable (Except.ok v0)) →
      SReach r s0 (some v0) n pre t ti →
      r.resumeWithValue t ti = Step.yields s1 (Item.plain w) →
      coSimpleRun r (n + fuel + 2) =
        some (Outcome.hung,
          SEv.resumed none :: SEv.subscribed :: SEv.settled (Except.ok v0) ::
            (pre ++ [SEv.resumed ti]))) := by
  constructor
  · intro r s1 w fuel h
    exact coSimpleGo_plain fuel true h
  · intro r s0 v0 n pre t ti s1 w fuel h0 hreach hplain
    show coSimpleGo r (n + fuel + 1 + 1) _ _ true = _
    rw [coSimpleGo_yield_ok (n + fuel + 1) true h0]
    have hlift := coSimpleGo_reach hreach (fuel + 1) false
    rw [ite_self] at hlift
    have hend := coSimpleGo_plain fuel false hplain
    rw [if_neg (by simp)] at hend
    rw [show n + fuel + 1 = n + (fuel + 1) from by omega]
    rw [hlift, hend]
    rfl

theorem plain_yield_behavior_witness :
    coSimpleRun plainFirst 1 =
        some (Outcome.rejected JsFault.thenNotFunction, [SEv.resumed none]) ∧
      coSimpleRun plainYielder 2 =
        some (Outcome.hung,
          SEv.resumed (α := Nat) none :: SEv.subscribed ::
            SEv.settled (Except.ok 7) :: ([] ++ [SEv.resumed (some 7)])) :=
  ⟨plain_yield_behavior.1 plainFirst () 5 0 rfl,
    plain_yield_behavior.2 plainYielder 1 7 0 [] 1 (some 7) 2 5 0 rfl SReach.refl rfl⟩

/-- A resumption input of the error-propagating driver: `val v` models
`onResolve(v)` (which calls `g.next(v)`), and `fault e` models
`onReject(e)` (which calls `g.throw(e)`, injecting the fault at the
routine's suspension point). -/
inductive Resume (α φ : Type) where
  | val (v : Option α)
  | fault (e : φ)

/-- Dispatch a resumption to the matching routine entry point. -/
def Routine.resume (r : Routine σ α ρ φ) (s : σ) : Resume α φ → Step σ α ρ φ
  | Resume.val v => r.resumeWithValue s v
  | Resume.fault e => r.resumeWithFault s e

/-- Events of the error-propagating driver, in chronological order: a
resumption through `g.next` or `g.throw`, a call to the driver
promise's `resolve` or `reject`, and the secondary TypeError raised by
`next(ret)` when it reads `ret.done` while `ret` is `undefined`. -/
inductive EEv (α ρ φ : Type) where
  | resumedNext (input : Option α)
  | resumedThrow (e : φ)
  | resolveCalled (v : ρ)
  | rejectCalled (e : φ)
  | typeErrorRaised

/-- The resumption event corresponding to a resumption input. -/
def resumeEv : Resume α φ → EEv α ρ φ
  | Resume.val v => EEv.resumedNext v
  | Resume.fault e => EEv.resumedThrow e

/-- One run of the error-propagating driver of
`generator-error-propagation-solution.js`, from state `s` about to be
resumed with `inp`.  Mirrors `onResolve` / `onReject` / `next`:

* if the resumption returns `{done: true, value}`, `next` calls
  `resolve(value)`;
* if it returns a yielded thenable, `next` subscribes `onResolve` and
  `onReject` to it, and the settlement determines the following
  resumption (a resolution is passed to `g.next`, a rejection is
  injected through `g.throw`);
* if the resumption throws `e`, the `catch` block calls `reject(e)`
  but does not return, so `next(ret)` still runs with `ret` left
  `undefined` and raises a TypeError reading `ret.done`; the driver
  promise is already settled (a throw in the executor after settling
  is ignored, a throw in a `.then` callback is swallowed), so the run
  ends rejected with `e` and no further resumption occurs;
* if the yielded item is a plain non-thenable, `ret.value.then` raises
  a TypeError, which rejects the driver promise only when it happens
  synchronously inside the executor (`inExec`), and otherwise is
  swallowed so the driver promise never settles. -/
def coErrGo (r : Routine σ α ρ φ) :
    Nat → σ → Resume α φ → Bool → Option (Outcome ρ φ × List (EEv α ρ φ))
  | 0, _, _, _ => none
  | fuel + 1, s, inp, inExec =>
    match r.resume s inp with
    | Step.raises e =>
        some (Outcome.rejected (JsFault.user e),
          [resumeEv inp, EEv.rejectCalled e, EEv.typeErrorRaised])
    | Step.finished v =>
        some (Outcome.resolved v, [resumeEv inp, EEv.resolveCalled v])
    | Step.yields _ (Item.plain _) =>
        some ((if inExec then Outcome.rejected JsFault.thenNotFunction else Outcome.hung),
          [resumeEv inp])
    | Step.yields s1 (Item.thenable (Except.ok v)) =>
        match coErrGo r fuel s1 (Resume.val (some v)) false with
        | none => none
        | some (out, evs) => some (out, resumeEv inp :: evs)
    | Step.yields s1 (Item.thenable (Except.error e)) =>
        match coErrGo r fuel s1 (Resume.fault e) false with
        | none => none
        | some (out, evs) => some (out, resumeEv inp :: evs)

/-- Run the error-propagating driver from the start: `onResolve()`
with no value, synchronously inside the executor. -/
def coErrRun (r : Routine σ α ρ φ) (fuel : Nat) :
    Option (Outcome ρ φ × List (EEv α ρ φ)) :=
  coErrGo r fuel r.init (Resume.val none) true

theorem coErrGo_succ (r : Routine σ α ρ φ) (fuel : Nat) (s : σ)
    (inp : Resume α φ) (inExec : Bool) :
    coErrGo r (fuel + 1) s inp inExec =
      match r.resume s inp with
      | Step.raises e =>
          some (Outcome.rejected (JsFault.user e),
            [resumeEv inp, EEv.rejectCalled e, EEv.typeErrorRaised])
      | Step.finished v =>
          some (Outcome.resolved v, [resumeEv inp, EEv.resolveCalled v])
      | Step.yields _ (Item.plain _) =>
          some ((if inExec then Outcome.rejected JsFault.thenNotFunction else Outcome.hung),
            [resumeEv inp])
      | Step.yields s1 (Item.thenable (Except.ok v)) =>
          match coErrGo r fuel s1 (Resume.val (some v)) false with
          | none => none
          | some (out, evs) => some (out, resumeEv inp :: evs)
      | Step.yields s1 (Item.thenable (Except.error e)) =>
          match coErrGo r fuel s1 (Resume.fault e) false with
          | none => none
          | some (out, evs) => some (out, resumeEv inp :: evs) :=
  rfl

theorem coErrGo_raises {r : Routine σ α ρ φ} {s : σ} {inp : Resume α φ}
    {e : φ} (fuel : Nat) (b : Bool) (h : r.resume s inp = Step.raises e) :
    coErrGo r (fuel + 1) s inp b =
      some (Outcome.rejected (JsFault.user e),
        [resumeEv inp, EEv.rejectCalled e, EEv.typeErrorRaised]) := by
  rw [coErrGo_succ, h]

theorem coErrGo_finished {r : Routine σ α ρ φ} {s : σ} {inp : Resume α φ}
    {v : ρ} (fuel : Nat) (b : Bool) (h : r.resume s inp = Step.finished v) :
    coErrGo r (fuel + 1) s inp b =
      some (Outcome.resolved v, [resumeEv inp, EEv.resolveCalled v]) := by
  rw [coErrGo_succ, h]

theorem coErrGo_plain {r : Routine σ α ρ φ} {s : σ} {inp : Resume α φ}
    {s1 : σ} {w : α} (fuel : Nat) (b : Bool)
    (h : r.resume s inp = Step.yields s1 (Item.plain w)) :
    coErrGo r (fuel + 1) s inp b =
      some ((if b then Outcome.rejected JsFault.thenNotFunction else Outcome.hung),
        [resumeEv inp]) := by
  rw [coErrGo_succ, h]

theorem coErrGo_yield_ok {r : Routine σ α ρ φ} {s : σ} {inp : Resume α φ}
    {s1 : σ} {v : α} (fuel : Nat) (b : Bool)
    (h : r.resume s inp = Step.yields s1 (Item.thenable (Except.ok v))) :
    coErrGo r (fuel + 1) s inp b =
      (coErrGo r fuel s1 (Resume.val (some v)) false).map
        (fun p => (p.1, resumeEv inp :: p.2)) := by
  rw [coErrGo_succ, h]
  show (match coErrGo r fuel s1 (Resume.val (some v)) false with
        | none => none
        | some (out, evs) => some (out, resumeEv inp :: evs)) = _
  rcases coErrGo r fuel s1 (Resume.val (some v)) false with _ | ⟨out, evs⟩ <;> rfl

theorem coErrGo_yield_err {r : Routine σ α ρ φ} {s : σ} {inp : Resume α φ}
    {s1 : σ} {e : φ} (fuel : Nat) (b : Bool)
    (h : r.resume s inp = Step.yields s1 (Item.thenable (Except.error e))) :
    coErrGo r (fuel + 1) s inp b =
      (coErrGo r fuel s1 (Resume.fault e) false).map
        (fun p => (p.1, resumeEv inp :: p.2)) := by
  rw [coErrGo_succ, h]
  show (match coErrGo r fuel s1 (Resume.fault e) false with
        | none => none
        | some (out, evs) => some (out, resumeEv inp :: evs)) = _
  rcases coErrGo r fuel s1 (Resume.fault e) false with _ | ⟨out, evs⟩ <;> rfl

/-- A fully handled drive of the error-propagating driver:
`EScript r s inp rs fin` holds when, starting from state `s` about to
be resumed with `inp`, the routine is resumed exactly with the inputs
`rs` (the first being `inp`), every yielded item is a thenable whose
settlement determines the next resumption — a rejection being injected
through the fault entry and answered normally, i.e. internally caught —
and the final resumption finishes with `fin`. -/
inductive EScript (r : Routine σ α ρ φ) :
    σ → Resume α φ → List (Resume α φ) → ρ → Prop
  | done {s inp v} :
      r.resume s inp = Step.finished v → EScript r s inp [inp] v
  | stepOk {s inp s1 v rs fin} :
      r.resume s inp = Step.yields s1 (Item.thenable (Except.ok v)) →
      EScript r s1 (Resume.val (some v)) rs fin →
      EScript r s inp (inp :: rs) fin
  | stepFault {s inp s1 e rs fin} :
      r.resume s inp = Step.yields s1 (Item.thenable (Except.error e)) →
      EScript r s1 (Resume.fault e) rs fin →
      EScript r s inp (inp :: rs) fin

theorem coErrGo_script {r : Routine σ α ρ φ} {s : σ} {inp : Resume α φ}
    {rs : List (Resume α φ)} {fin : ρ} (h : EScript r s inp rs fin) (b : Bool) :
    coErrGo r rs.length s inp b =
      some (Outcome.resolved fin,
        rs.map resumeEv ++ [EEv.resolveCalled fin]) := by
  induction h generalizing b with
  | done hstep =>
      show coErrGo r (0 + 1) _ _ b = _
      rw [coErrGo_finished 0 b hstep]
      rfl
  | stepOk hstep _ ih =>
      show coErrGo r (_ + 1) _ _ b = _
      rw [coErrGo_yield_ok _ b hstep, ih false]
      rfl
  | stepFault hstep _ ih =>
      show coErrGo r (_ + 1) _ _ b = _
      rw [coErrGo_yield_err _ b hstep, ih false]
      rfl

theorem rejectCalled_not_mem_script_events {rs : List (Resume α φ)}
    {fin : ρ} (e : φ) :
    EEv.rejectCalled e ∉ rs.map resumeEv ++ [EEv.resolveCalled fin] := by
  intro hmem
  rcases List.mem_append.mp hmem with hmap | hlast
  · obtain ⟨x, -, hx⟩ := List.mem_map.mp hmap
    cases x <;> simp [resumeEv] at hx
  · simp at hlast

/-- Claim C2: for every fully handled drive — every rejected pending
operation is injected through the routine's fault entry (`g.throw`)
and the routine recovers, answering with a further yield or by
finishing — the error-propagating driver resolves the Driver Result
with the routine's true final value, the trace records exactly the
script's resumptions (rejections arriving as `resumedThrow`, i.e. at
the suspension point), and `reject` is never called on the Driver
Result: the fault never reaches it. -/
theorem fault_recovery {r : Routine σ α ρ φ} {rs : List (Resume α φ)}
    {fin : ρ} (h : EScript r r.init (Resume.val none) rs fin) :
    coErrRun r rs.length =
        some (Outcome.resolved fin,
          rs.map resumeEv ++ [EEv.resolveCalled fin]) ∧
      ∀ e, EEv.rejectCalled e ∉ rs.map resumeEv ++ [EEv.resolveCalled fin] :=
  ⟨coErrGo_script h true, fun e => rejectCalled_not_mem_script_events e⟩

/-- The recovering routine of the codelab's error-propagation example:
it yields an operation resolving to 1, then an operation that rejects;
it catches the injected fault and continues with an operation
resolving to 3, and finally returns the sum of the values it
received. -/
def recoverRoutine : Routine (Nat × Nat) Nat Nat Unit where
  init := (0, 0)
  resumeWithValue := fun s inp =>
    let acc := match inp with
      | none => s.2
      | some v => s.2 + v
    match s.1 with
    | 0 => Step.yields (1, acc) (Item.thenable (Except.ok 1))
    | 1 => Step.yields (2, acc) (Item.thenable (Except.error ()))
    | 2 => Step.yields (3, acc) (Item.thenable (Except.ok 3))
    | _ => Step.finished acc
  resumeWithFault := fun s _ =>
    match s.1 with
    | 2 => Step.yields (3, s.2) (Item.thenable (Except.ok 3))
    | _ => Step.raises ()

theorem fault_recovery_witness :
    coErrRun recoverRoutine 4 =
        some (Outcome.resolved 4,
          [Resume.val (none : Option Nat), Resume.val (some 1), Resume.fault (),
              Resume.val (some 3)].map resumeEv ++ [EEv.resolveCalled 4]) ∧
      ∀ e, EEv.rejectCalled e ∉
        [Resume.val (none : Option Nat), Resume.val (some 1), Resume.fault (),
            Resume.val (some 3)].map resumeEv ++ [EEv.resolveCalled (4 : Nat)] := by
  have h : EScript recoverRoutine recoverRoutine.init (Resume.val none)
      [Resume.val none, Resume.val (some 1), Resume.fault (), Resume.val (some 3)] 4 :=
    EScript.stepOk rfl (EScript.stepFault rfl (EScript.stepOk rfl (EScript.done rfl)))
  exact fault_recovery h

/-- `EReach r s inp n pre t ti` holds when, driven by the
error-propagating driver from state `s` about to be resumed with
`inp`, the routine performs `n` resumptions, each yielding a thenable
whose settlement determines the next resumption, producing the event
prefix `pre`, and leaves the driver about to resume state `t` with
input `ti`. -/
inductive EReach (r : Routine σ α ρ φ) :
    σ → Resume α φ → Nat → List (EEv α ρ φ) → σ → Resume α φ → Prop
  | refl {s inp} : EReach r s inp 0 [] s inp
  | stepOk {s inp s1 v n evs t ti} :
      r.resume s inp = Step.yields s1 (Item.thenable (Except.ok v)) →
      EReach r s1 (Resume.val (some v)) n evs t ti →
      EReach r s inp (n + 1) (resumeEv inp :: evs) t ti
  | stepFault {s inp s1 e n evs t ti} :
      r.resume s inp = Step.yields s1 (Item.thenable (Except.error e)) →
      EReach r s1 (Resume.fault e) n evs t ti →
      EReach r s inp (n + 1) (resumeEv inp :: evs) t ti

theorem emap_prepend_nil (o : Option (Outcome ρ φ × List (EEv α ρ φ))) :
    o.map (fun p => (p.1, ([] : List (EEv α ρ φ)) ++ p.2)) = o := by
  rcases o with _ | ⟨out, l⟩ <;> simp

theorem coErrGo_reach {r : Routine σ α ρ φ} {s : σ} {inp : Resume α φ}
    {n : Nat} {pre : List (EEv α ρ φ)} {t : σ} {ti : Resume α φ}
    (h : EReach r s inp n pre t ti) :
    ∀ (fuel : Nat) (b : Bool),
      coErrGo r (n + fuel) s inp b =
        (coErrGo r fuel t ti (if n = 0 then b else false)).map
          (fun p => (p.1, pre ++ p.2)) := by
  induction h with
  | refl =>
      intro fuel b
      rw [Nat.zero_add, if_pos rfl, emap_prepend_nil]
  | stepOk hstep _ ih =>
      intro fuel b
      rw [Nat.add_right_comm]
      rw [coErrGo_yield_ok _ b hstep]
      have hlift := ih fuel false
      rw [ite_self] at hlift
      rw [hlift, if_neg (Nat.succ_ne_zero _), Option.map_map]
      rfl
  | stepFault hstep _ ih =>
      intro fuel b
      rw [Nat.add_right_comm]
      rw [coErrGo_yield_err _ b hstep]
      have hlift := ih fuel false
      rw [ite_self] at hlift
      rw [hlift, if_neg (Nat.succ_ne_zero _), Option.map_map]
      rfl

theorem coErr_raise_run {r : Routine σ α ρ φ} {n : Nat}
    {pre : List (EEv α ρ φ)} {s : σ} {inp : Resume α φ} {e : φ}
    (h1 : EReach r r.init (Resume.val none) n pre s inp)
    (h2 : r.resume s inp = Step.raises e) (fuel : Nat) :
    coErrRun r (n + fuel + 1) =
      some (Outcome.rejected (JsFault.user e),
        pre ++ [resumeEv inp, EEv.rejectCalled e, EEv.typeErrorRaised]) := by
  show coErrGo r (n + fuel + 1) _ _ true = _
  rw [show n + fuel + 1 = n + (fuel + 1) from by omega]
  rw [coErrGo_reach h1 (fuel + 1) true]
  rw [coErrGo_raises fuel _ h2]
  rfl

/-- The number of resumptions (through `g.next` or `g.throw`) recorded
in an error-driver trace. -/
def countResumes : List (EEv α ρ φ) → Nat
  | [] => 0
  | EEv.resumedNext _ :: t => countResumes t + 1
  | EEv.resumedThrow _ :: t => countResumes t + 1
  | _ :: t => countResumes t

theorem countResumes_cons_resumeEv (inp : Resume α φ) (l : List (EEv α ρ φ)) :
    countResumes (resumeEv inp :: l) = countResumes l + 1 := by
  cases inp <;> rfl

theorem countResumes_reach {r : Routine σ α ρ φ} {s : σ} {inp : Resume α φ}
    {n : Nat} {pre : List (EEv α ρ φ)} {t : σ} {ti : Resume α φ}
    (h : EReach r s inp n pre t ti) : countResumes pre = n := by
  induction h with
  | refl => rfl
  | stepOk hstep _ ih => rw [countResumes_cons_resumeEv, ih]
  | stepFault hstep _ ih => rw [countResumes_cons_resumeEv, ih]

theorem countResumes_append (l1 l2 : List (EEv α ρ φ)) :
    countResumes (l1 ++ l2) = countResumes l1 + countResumes l2 := by
  induction l1 with
  | nil => simp [countResumes]
  | cons x t ih => cases x <;> simp [countResumes, ih] <;> omega

/-- Claim C3: when a pending operation rejects with fault `f` and the
routine does not handle it — injecting `f` through the fault entry
itself raises `f` — the error-propagating driver rejects the Driver
Result with that same fault `f`, and the routine is never resumed
again: the whole trace contains exactly the `n` resumptions that led
to the failing operation plus the one failed injection. -/
theorem unhandled_fault_propagates {r : Routine σ α ρ φ} {n : Nat}
    {pre : List (EEv α ρ φ)} {s : σ} {f : φ}
    (h1 : EReach r r.init (Resume.val none) n pre s (Resume.fault f))
    (h2 : r.resumeWithFault s f = Step.raises f) (fuel : Nat) :
    coErrRun r (n + fuel + 1) =
        some (Outcome.rejected (JsFault.user f),
          pre ++ [EEv.resumedThrow f, EEv.rejectCalled f, EEv.typeErrorRaised]) ∧
      countResumes
        (pre ++ [EEv.resumedThrow f, EEv.rejectCalled f,
          EEv.typeErrorRaised (α := α) (ρ := ρ)]) = n + 1 := by
  refine ⟨coErr_raise_run h1 h2 fuel, ?_⟩
  rw [countResumes_append, countResumes_reach h1]
  rfl

/-- A routine that yields one operation rejecting with fault 7 and has
no handler: injecting the fault rethrows it. -/
def unhandledRoutine : Routine Nat Nat Nat Nat where
  init := 0
  resumeWithValue := fun s _ =>
    match s with
    | 0 => Step.yields 1 (Item.thenable (Except.error 7))
    | _ => Step.finished 0
  resumeWithFault := fun _ e => Step.raises e

theorem unhandled_fault_propagates_witness :
    coErrRun unhandledRoutine 2 =
        some (Outcome.rejected (JsFault.user 7),
          [EEv.resumedNext none] ++
            [EEv.resumedThrow 7, EEv.rejectCalled 7, EEv.typeErrorRaised]) ∧
      countResumes
        ([EEv.resumedNext (none : Option Nat)] ++
          [EEv.resumedThrow 7, EEv.rejectCalled 7,
            EEv.typeErrorRaised (ρ := Nat)]) = 1 + 1 := by
  have h : EReach unhandledRoutine unhandledRoutine.init (Resume.val none) 1
      [EEv.resumedNext none] 1 (Resume.fault 7) :=
    EReach.stepFault rfl EReach.refl
  exact unhandled_fault_propagates h rfl 0

/-- Claim C4: when a normal, value-carrying resumption of the routine
raises `e`, the error-propagating driver rejects the Driver Result
with `e` and the routine is never resumed again. -/
theorem routine_raise_rejects {r : Routine σ α ρ φ} {n : Nat}
    {pre : List (EEv α ρ φ)} {s : σ} {v : Option α} {e : φ}
    (h1 : EReach r r.init (Resume.val none) n pre s (Resume.val v))
    (h2 : r.resumeWithValue s v = Step.raises e) (fuel : Nat) :
    coErrRun r (n + fuel + 1) =
        some (Outcome.rejected (JsFault.user e),
          pre ++ [EEv.resumedNext v, EEv.rejectCalled e, EEv.typeErrorRaised]) ∧
      countResumes
        (pre ++ [EEv.resumedNext v, EEv.rejectCalled e,
          EEv.typeErrorRaised (ρ := ρ)]) = n + 1 := by
  refine ⟨coErr_raise_run h1 h2 fuel, ?_⟩
  rw [countResumes_append, countResumes_reach h1]
  rfl

/-- A routine that raises fault 3 on its very first resumption. -/
def raiserRoutine : Routine Unit Nat Nat Nat where
  init := ()
  resumeWithValue := fun _ _ => Step.raises 3
  resumeWithFault := fun _ e => Step.raises e

theorem routine_raise_rejects_witness :
    coErrRun raiserRoutine 1 =
        some (Outcome.rejected (JsFault.user 3),
          [] ++ [EEv.resumedNext none, EEv.rejectCalled 3, EEv.typeErrorRaised]) ∧
      countResumes
        (([] : List (EEv Nat Nat Nat)) ++
          [EEv.resumedNext none, EEv.rejectCalled 3, EEv.typeErrorRaised]) = 0 + 1 :=
  routine_raise_rejects EReach.refl rfl 0

/-- Claim C10: whenever a resumption raises — `g.next` or `g.throw`
throws and the `catch` block rejects the driver promise — control does
not return early: the settlement callback still calls `next(ret)` with
`ret` left `undefined`, which raises a secondary TypeError reading
`ret.done`; the trace records that TypeError immediately after the
`reject` call, i.e. after the Driver Result has already been
rejected. -/
theorem secondary_type_error {r : Routine σ α ρ φ} {n : Nat}
    {pre : List (EEv α ρ φ)} {s : σ} {inp : Resume α φ} {e : φ}
    (h1 : EReach r r.init (Resume.val none) n pre s inp)
    (h2 : r.resume s inp = Step.raises e) (fuel : Nat) :
    coErrRun r (n + fuel + 1) =
      some (Outcome.rejected (JsFault.user e),
        pre ++ [resumeEv inp, EEv.rejectCalled e, EEv.typeErrorRaised]) :=
  coErr_raise_run h1 h2 fuel

theorem secondary_type_error_witness :
    coErrRun unhandledRoutine 2 =
      some (Outcome.rejected (JsFault.user 7),
        [EEv.resumedNext none] ++
          [resumeEv (Resume.fault 7), EEv.rejectCalled 7, EEv.typeErrorRaised]) := by
  have h : EReach unhandledRoutine unhandledRoutine.init (Resume.val none) 1
      [EEv.resumedNext none] 1 (Resume.fault 7) :=
    EReach.stepFault rfl EReach.refl
  exact secondary_type_error h rfl 0

/-- The calls to the driver promise's `resolve` / `reject` recorded in
an error-driver trace, in order. -/
def settleCalls : List (EEv α ρ φ) → List (EEv α ρ φ)
  | [] => []
  | EEv.resolveCalled v :: t => EEv.resolveCalled v :: settleCalls t
  | EEv.rejectCalled e :: t => EEv.rejectCalled e :: settleCalls t
  | _ :: t => settleCalls t

theorem settleCalls_cons_resumeEv (inp : Resume α φ) (l : List (EEv α ρ φ)) :
    settleCalls (resumeEv inp :: l) = settleCalls l := by
  cases inp <;> rfl

theorem coErrGo_single_settlement {r : Routine σ α ρ φ} :
    ∀ (fuel : Nat) (s : σ) (inp : Resume α φ) (b : Bool) (out : Outcome ρ φ)
      (evs : List (EEv α ρ φ)),
      coErrGo r fuel s inp b = some (out, evs) →
      (settleCalls evs).length ≤ 1 ∧
      (∀ v, settleCalls evs = [EEv.resolveCalled v] → out = Outcome.resolved v) ∧
      (∀ e, settleCalls evs = [EEv.rejectCalled e] →
        out = Outcome.rejected (JsFault.user e)) ∧
      (settleCalls evs = [] →
        out = Outcome.hung ∨ out = Outcome.rejected JsFault.thenNotFunction) := by
  intro fuel
  induction fuel with
  | zero => intro s inp b out evs h; exact absurd h (by simp [coErrGo])
  | succ fuel ih =>
      intro s inp b out evs h
      rcases hstep : r.resume s inp with ⟨s1, item⟩ | v | e
      · rcases item with sett | w
        · rcases sett with e | v
          · rw [coErrGo_yield_err fuel b hstep] at h
            rcases hrec : coErrGo r fuel s1 (Resume.fault e) false with _ | ⟨out1, evs1⟩
            · rw [hrec] at h; exact absurd h (by simp)
            · rw [hrec] at h
              have h2 : some (out1, resumeEv inp :: evs1) = some (out, evs) := h
              obtain ⟨ho, hevs⟩ := Prod.mk.injEq .. ▸ Option.some.injEq .. ▸ h2
              subst ho
              subst hevs
              rw [settleCalls_cons_resumeEv]
              exact ih s1 (Resume.fault e) false out1 evs1 hrec
          · rw [coErrGo_yield_ok fuel b hstep] at h
            rcases hrec : coErrGo r fuel s1 (Resume.val (some v)) false
                with _ | ⟨out1, evs1⟩
            · rw [hrec] at h; exact absurd h (by simp)
            · rw [hrec] at h
              have h2 : some (out1, resumeEv inp :: evs1) = some (out, evs) := h
              obtain ⟨ho, hevs⟩ := Prod.mk.injEq .. ▸ Option.some.injEq .. ▸ h2
              subst ho
              subst hevs
              rw [settleCalls_cons_resumeEv]
              exact ih s1 (Resume.val (some v)) false out1 evs1 hrec
        · rw [coErrGo_plain fuel b hstep] at h
          obtain ⟨ho, hevs⟩ := Prod.mk.injEq .. ▸ Option.some.injEq .. ▸ h
          subst ho
          subst hevs
          rw [settleCalls_cons_resumeEv]
          refine ⟨by simp [settleCalls], by simp [settleCalls], by simp [settleCalls], ?_⟩
          intro _
          cases b
          · exact Or.inl rfl
          · exact Or.inr rfl
      · rw [coErrGo_finished fuel b hstep] at h
        obtain ⟨ho, hevs⟩ := Prod.mk.injEq .. ▸ Option.some.injEq .. ▸ h
        subst ho
        subst hevs
        rw [settleCalls_cons_resumeEv]
        refine ⟨by simp [settleCalls], ?_, by simp [settleCalls], by simp [settleCalls]⟩
        intro w hw
        simp [settleCalls] at hw
        rw [hw]
      · rw [coErrGo_raises fuel b hstep] at h
        obtain ⟨ho, hevs⟩ := Prod.mk.injEq .. ▸ Option.some.injEq .. ▸ h
        subst ho
        subst hevs
        rw [settleCalls_cons_resumeEv]
        refine ⟨by simp [settleCalls], by simp [settleCalls], ?_, by simp [settleCalls]⟩
        intro f hf
        simp [settleCalls] at hf
        rw [hf]

/-- Claim C8: on every terminating drive, the error-propagating driver
settles the Driver Result at most once: the trace contains at most one
call to `resolve`/`reject`, and the Driver Result's settlement is
exactly that call (when no call was recorded, either the promise never
settles, or it was rejected by the TypeError escaping the executor on
a non-thenable first yield — still a single settlement). -/
theorem single_settlement {r : Routine σ α ρ φ} {fuel : Nat}
    {out : Outcome ρ φ} {evs : List (EEv α ρ φ)}
    (h : coErrRun r fuel = some (out, evs)) :
    (settleCalls evs).length ≤ 1 ∧
      (∀ v, settleCalls evs = [EEv.resolveCalled v] → out = Outcome.resolved v) ∧
      (∀ e, settleCalls evs = [EEv.rejectCalled e] →
        out = Outcome.rejected (JsFault.user e)) ∧
      (settleCalls evs = [] →
        out = Outcome.hung ∨ out = Outcome.rejected JsFault.thenNotFunction) :=
  coErrGo_single_settlement fuel r.init (Resume.val none) true out evs h

theorem single_settlement_witness :
    (settleCalls [EEv.resumedNext (none : Option Nat), EEv.resumedThrow 7,
        EEv.rejectCalled 7, EEv.typeErrorRaised (ρ := Nat)]).length ≤ 1 ∧
      (∀ v, settleCalls [EEv.resumedNext (none : Option Nat), EEv.resumedThrow 7,
          EEv.rejectCalled 7, EEv.typeErrorRaised (ρ := Nat)] = [EEv.resolveCalled v] →
        (Outcome.rejected (JsFault.user 7) : Outcome Nat Nat) = Outcome.resolved v) ∧
      (∀ e, settleCalls [EEv.resumedNext (none : Option Nat), EEv.resumedThrow 7,
          EEv.rejectCalled 7, EEv.typeErrorRaised (ρ := Nat)] = [EEv.rejectCalled e] →
        (Outcome.rejected (JsFault.user 7) : Outcome Nat Nat) =
          Outcome.rejected (JsFault.user e)) ∧
      (settleCalls [EEv.resumedNext (none : Option Nat), EEv.resumedThrow 7,
          EEv.rejectCalled 7, EEv.typeErrorRaised (ρ := Nat)] = [] →
        (Outcome.rejected (JsFault.user 7) : Outcome Nat Nat) = Outcome.hung ∨
          (Outcome.rejected (JsFault.user 7) : Outcome Nat Nat) =
            Outcome.rejected JsFault.thenNotFunction) :=
  @single_settlement Nat Nat Nat Nat unhandledRoutine 2
    (Outcome.rejected (JsFault.user 7))
    [EEv.resumedNext none, EEv.resumedThrow 7, EEv.rejectCalled 7,
      EEv.typeErrorRaised] rfl

/-- A JavaScript numeric value as the hand-written `adder` manipulates
it: a number, `undefined` (an unassigned variable such as the initial
`lastSum`/`temp`), or NaN (the result of arithmetic involving
`undefined`). -/
inductive JsVal where
  | num (n : Int)
  | undef
  | nan
  deriving DecidableEq, Repr

/-- JavaScript addition as used by `sum += input`: number plus number
is a number, anything involving `undefined` or NaN is NaN. -/
def JsVal.add : JsVal → JsVal → JsVal
  | JsVal.num a, JsVal.num b => JsVal.num (a + b)
  | _, _ => JsVal.nan

/-- The `state` tag of the adder: the string `'initial'` or `'loop'`. -/
inductive AdderTag where
  | initial
  | loop
  deriving DecidableEq, Repr

/-- The closure variables of one `adder(initialValue)` instance:
`state`, `done`, `sum`, `lastSum`, `temp`, plus the captured parameter
`initialValue`.  `lastSum` and `temp` start out `undefined`. -/
structure AdderState where
  state : AdderTag
  done : Bool
  sum : JsVal
  lastSum : JsVal
  temp : JsVal
  initialValue : JsVal
  deriving DecidableEq, Repr

/-- `adder(v)`: the freshly closed-over state. -/
def adder (v : Int) : AdderState :=
  ⟨AdderTag.initial, false, JsVal.num v, JsVal.undef, JsVal.undef, JsVal.num v⟩

/-- The `go(input, err)` body of the adder.  `err` being `some` models
the truthiness test `if (err)` passing (the injected faults of the
source are Error objects, which are truthy).  Returns the updated
closure state and the `{done, value}` record, or `Except.error` when
`go` throws: the `initial` state rethrows an injected fault, while the
`loop` state's try/catch swallows it and restores `sum = lastSum`. -/
def adderGo (s : AdderState) (input : JsVal) (err : Option ε) :
    Except ε (AdderState × (Bool × JsVal)) :=
  match s.state with
  | AdderTag.initial =>
      match err with
      | some e => Except.error e
      | none =>
          Except.ok
            (⟨AdderTag.loop, s.done, s.sum, s.lastSum, s.sum, s.initialValue⟩,
              (s.done, s.initialValue))
  | AdderTag.loop =>
      match err with
      | some _ =>
          Except.ok
            (⟨AdderTag.loop, s.done, s.lastSum, s.lastSum, s.temp, s.initialValue⟩,
              (s.done, s.lastSum))
      | none =>
          Except.ok
            (⟨AdderTag.loop, s.done, s.sum.add input, s.temp, s.sum.add input,
                s.initialValue⟩,
              (s.done, s.sum.add input))

/-- `add.next(input)`: `go(input, undefined)`. -/
def adderNext (s : AdderState) (input : JsVal) :
    Except ε (AdderState × (Bool × JsVal)) :=
  adderGo s input none

/-- `add.throw(err)`: `go(undefined, err)`. -/
def adderThrow (s : AdderState) (e : ε) :
    Except ε (AdderState × (Bool × JsVal)) :=
  adderGo s JsVal.undef (some e)

/-- The `runner()` call sequence — `next()`, `next(1)`, `next(2)`,
`throw(e)`, `next(4)` on `adder(0)` — collecting the returned
`{done, value}` records; `none` if any call throws. -/
def adderDemo (e : ε) : Option (List (Bool × JsVal)) :=
  match (adderNext (adder 0) JsVal.undef : Except ε (AdderState × (Bool × JsVal))) with
  | Except.error _ => none
  | Except.ok (s1, r1) =>
  match (adderNext s1 (JsVal.num 1) : Except ε (AdderState × (Bool × JsVal))) with
  | Except.error _ => none
  | Except.ok (s2, r2) =>
  match (adderNext s2 (JsVal.num 2) : Except ε (AdderState × (Bool × JsVal))) with
  | Except.error _ => none
  | Except.ok (s3, r3) =>
  match adderThrow s3 e with
  | Except.error _ => none
  | Except.ok (s4, r4) =>
  match (adderNext s4 (JsVal.num 4) : Except ε (AdderState × (Bool × JsVal))) with
  | Except.error _ => none
  | Except.ok (_, r5) => some [r1, r2, r3, r4, r5]

/-- Claim C9: the hand-written adder with initial value 0 returns the
records `{done: false, value}` with values 0, 1, 3, 1, 5 under the
call sequence `next(), next(1), next(2), throw(e), next(4)`; a fault
injected in the `loop` state after a successful addition reverts `sum`
to its value before that addition (and reports it); a fault injected
in the `initial` state propagates out to the caller; and the adder
never reports `done: true`. -/
theorem adder_state_machine :
    (∀ (ε : Type) (e : ε),
      adderDemo e =
        some [(false, JsVal.num 0), (false, JsVal.num 1), (false, JsVal.num 3),
          (false, JsVal.num 1), (false, JsVal.num 5)]) ∧
    (∀ (ε : Type) (e : ε) (s : AdderState) (c a : Int),
      s.state = AdderTag.loop → s.done = false →
      s.sum = JsVal.num c → s.temp = JsVal.num c →
      ∃ s1 s2,
        (adderNext s (JsVal.num a) : Except ε (AdderState × (Bool × JsVal))) =
            Except.ok (s1, (false, JsVal.num (c + a))) ∧
          s1.sum = JsVal.num (c + a) ∧
          adderThrow s1 e = Except.ok (s2, (false, JsVal.num c)) ∧
          s2.sum = JsVal.num c) ∧
    (∀ (ε : Type) (e : ε) (s : AdderState),
      s.state = AdderTag.initial → adderThrow s e = Except.error e) ∧
    (∀ (ε : Type) (s : AdderState) (input : JsVal) (err : Option ε)
      (s1 : AdderState) (d : Bool) (v : JsVal),
      s.done = false → adderGo s input err = Except.ok (s1, (d, v)) →
      d = false ∧ s1.done = false) := by
  refine ⟨fun ε e => rfl, ?_, ?_, ?_⟩
  · intro ε e s c a hstate hdone hsum htemp
    rcases s with ⟨st, d, sum0, last0, temp0, iv⟩
    simp only at hstate hdone hsum htemp
    subst hstate
    subst hdone
    subst hsum
    subst htemp
    exact ⟨_, _, rfl, rfl, rfl, rfl⟩
  · intro ε e s hstate
    rcases s with ⟨st, d, sum0, last0, temp0, iv⟩
    simp only at hstate
    subst hstate
    rfl
  · intro ε s input err s1 d v hdone h
    rcases s with ⟨st, d0, sum0, last0, temp0, iv⟩
    simp only at hdone
    subst hdone
    cases st <;> cases err
    · simp only [adderGo, Except.ok.injEq, Prod.mk.injEq] at h
      obtain ⟨hs, hd, -⟩ := h
      subst hs
      exact ⟨hd.symm, rfl⟩
    · exact absurd h (by simp [adderGo])
    · simp only [adderGo, Except.ok.injEq, Prod.mk.injEq] at h
      obtain ⟨hs, hd, -⟩ := h
      subst hs
      exact ⟨hd.symm, rfl⟩
    · simp only [adderGo, Except.ok.injEq, Prod.mk.injEq] at h
      obtain ⟨hs, hd, -⟩ := h
      subst hs
      exact ⟨hd.symm, rfl⟩

theorem adder_state_machine_witness :
    adderDemo () =
        some [(false, JsVal.num 0), (false, JsVal.num 1), (false, JsVal.num 3),
          (false, JsVal.num 1), (false, JsVal.num 5)] ∧
      (∃ s1 s2,
        (adderNext
            (⟨AdderTag.loop, false, JsVal.num 3, JsVal.num 1, JsVal.num 3,
              JsVal.num 0⟩ : AdderState) (JsVal.num 4) :
            Except Unit (AdderState × (Bool × JsVal))) =
            Except.ok (s1, (false, JsVal.num (3 + 4))) ∧
          s1.sum = JsVal.num (3 + 4) ∧
          adderThrow s1 () = Except.ok (s2, (false, JsVal.num 3)) ∧
          s2.sum = JsVal.num 3) ∧
      adderThrow (adder 0) () = Except.error () ∧
      (false = false ∧
        (⟨AdderTag.loop, false, JsVal.num 0, JsVal.undef, JsVal.num 0,
          JsVal.num 0⟩ : AdderState).done = false) :=
  ⟨adder_state_machine.1 Unit (),
    adder_state_machine.2.1 Unit ()
      ⟨AdderTag.loop, false, JsVal.num 3, JsVal.num 1, JsVal.num 3, JsVal.num 0⟩
      3 4 rfl rfl rfl rfl,
    adder_state_machine.2.2.1 Unit () (adder 0) rfl,
    adder_state_machine.2.2.2 Unit (adder 0) JsVal.undef (none : Option Unit)
      ⟨AdderTag.loop, false, JsVal.num 0, JsVal.undef, JsVal.num 0, JsVal.num 0⟩
      false (JsVal.num 0) rfl rfl⟩

end AsyncCo
